import Mathlib

/-!
Verification of the consensus-node orchestration layer of the `dex`
repository (`pkg/consensus/node.go`) against its natural-language
specification, via a shallow embedding in Lean 4.

Modelling conventions:

* Go slices become `List`; Go slice indexing `xs[i]` with a possibly
  out-of-range index becomes `List.get?` with the out-of-range case mapped
  to the `GoPanic.indexOutOfRange` outcome (in Go an out-of-range index
  panics, and an unrecovered panic inside a goroutine terminates the whole
  process).
* An explicit `panic(err)` call in the source becomes `GoPanic.panicCalled`.
* A buffered Go channel of capacity 20 becomes a `List` of queued values
  together with the capacity constant `chanCap`; a blocking send on a full
  channel is modelled as the send not completing (the fan-out loop stops).
* A `context.CancelFunc` stored in `cancelNotarize` becomes `Option Bool`:
  `none` is a nil handle, `some b` a handle whose context's "done" flag is
  `b`.  Calling the function sets the flag; Go's `context` cancellation is
  idempotent, so calling it on an already-done context changes nothing.
* Work started with `go func(){...}()` is recorded in a `spawned` trace (or
  returned as a task value to be run later), while work executed by the
  caller inside the `n.mu` critical section is recorded in an `inLock`
  trace.
* External cryptographic primitives (`SHA3`, `signRandBeaconShare`) are not
  part of this repository's source; the theorems quantify over them as
  function parameters, so every statement holds for any implementation.
-/

set_option maxHeartbeats 1000000

namespace Dex

/-- Outcome of a Go runtime panic reached by the modelled code. -/
inductive GoPanic where
  | indexOutOfRange
  | panicCalled
  deriving DecidableEq

/-- The node's secret key handle (`SK` in the source).  `pkResult` models
the result of `sk.PK()` (`none` = error), `getResult` the result of
`sk.Get()` / `sk.MustGet()` (`none` = error, on which `MustGet` panics). -/
structure SK where
  pkResult : Option Nat
  getResult : Option Nat
  deriving DecidableEq

/-- One entry of the random-beacon history: the finalized group signature
of its round (`history[r].Sig` in `EndRound`). -/
structure BeaconEntry where
  Sig : List Nat
  deriving DecidableEq

/-- A membership of this node in one group (`membership` in the source):
the group id and this node's BLS secret-key share for the group. -/
structure GroupMembership where
  skShare : Nat
  groupID : Nat
  deriving DecidableEq

/-- Consensus-layer configuration (`Config` in the source). -/
structure Config where
  blockTime : Nat
  groupSize : Nat
  groupThreshold : Nat
  deriving DecidableEq

/-- Block proposals are routed by the node without inspecting them; their
structure lives outside the embedded fragment, so they are modelled as
plain identifiers. -/
abbrev BlockProposal := Nat

/-- The fragment of the `Chain` / `RandomBeacon` state the node reads:
the beacon history and the committee selector
(`chain.RandomBeacon.Committees`), whose body is outside `node.go` and is
therefore kept abstract as a function field. -/
structure Chain where
  history : List BeaconEntry
  committees : Nat → Nat × Nat × Nat

/-- The node state (`Node` in the source): its address, configuration,
secret key, chain reference, group memberships, per-round notary input
channels (each a bounded queue of buffered proposals) and the shared
notarization cancel handle. -/
structure Node where
  addr : Nat
  cfg : Config
  sk : SK
  chain : Chain
  memberships : List GroupMembership
  notarizeChs : List (List BlockProposal)
  cancelNotarize : Option Bool

/-- Capacity of each notary input channel
(`make(chan *BlockProposal, 20)` in `_StartRound`). -/
def chanCap : Nat := 20

/-- `EndRound`'s guarded cancel call: `if n.cancelNotarize != nil {
n.cancelNotarize() }`.  A nil handle is left untouched (the guard prevents
the nil-call panic); a present handle has its context flag set to done.
`context.CancelFunc` is idempotent, so re-firing a done handle is a no-op. -/
def callCancel : Option Bool → Option Bool
  | none => none
  | some _ => some true

/-- The closure spawned by `EndRound` for one random-beacon-committee
membership: it captures the membership's key share and the ended round. -/
structure BeaconTask where
  keyShare : Nat
  round : Nat
  deriving DecidableEq

/-- Body of the goroutine `EndRound` spawns per random-beacon membership:
read the history, hash `history[round].Sig`, and sign a share for
`round+1`; the returned value is the share handed to
`n.net.recvRandBeaconSigShare` (the broadcast).  `history[round]` panics
when the entry does not exist, and `n.sk.MustGet()` panics when the key is
unavailable.  `sign` and `sha3` stand for the external
`signRandBeaconShare` and `SHA3` primitives. -/
def runBeaconTask {α : Type} (sign : Nat → Nat → Nat → List Nat → α)
    (sha3 : List Nat → List Nat) (sk : SK) (t : BeaconTask)
    (history : List BeaconEntry) : Except GoPanic α :=
  match history.get? t.round with
  | none => .error .indexOutOfRange
  | some e =>
    match sk.getResult with
    | none => .error .panicCalled
    | some skv => .ok (sign skv t.keyShare (t.round + 1) (sha3 e.Sig))

/-- `EndRound` (source lines 125-157): under the lock, drop all notary
input channels, fire the shared cancel handle when present, then for every
membership in the round's random-beacon committee spawn a signing goroutine
(returned here as the list of spawned `BeaconTask`s, in membership order). -/
def EndRound (n : Node) (round : Nat) : Node × List BeaconTask :=
  let n1 := { n with notarizeChs := [], cancelNotarize := callCancel n.cancelNotarize }
  let rb := (n.chain.committees round).1
  let tasks := n.memberships.filterMap fun m =>
    if m.groupID = rb then some ⟨m.skShare, round⟩ else none
  (n1, tasks)

/-- The fan-out loop of `RecvBlockProposal`: `for _, ch := range
n.notarizeChs { ch <- bp }`.  Each send enqueues on the channel's buffer
when it has room; a send on a full buffer blocks the loop, so the remaining
channels receive nothing.  Returns the updated channels and whether the
loop ran to completion. -/
def fanOut : List (List BlockProposal) → BlockProposal →
    List (List BlockProposal) × Bool
  | [], _ => ([], true)
  | ch :: rest, bp =>
    if ch.length < chanCap then
      let r := fanOut rest bp
      ((ch ++ [bp]) :: r.1, r.2)
    else
      (ch :: rest, false)

/-- `RecvBlockProposal` (source lines 161-168): under the lock, fan the
proposal out to every recorded notary input channel. -/
def RecvBlockProposal (n : Node) (bp : BlockProposal) : Node × Bool :=
  let r := fanOut n.notarizeChs bp
  ({ n with notarizeChs := r.1 }, r.2)

/-- Observable operations of `_StartRound`, tagged by where they execute:
in the caller's critical section or in a spawned goroutine. -/
inductive Event where
  | proposeBlock
  | broadcastProposal
  | runNotary (groupID : Nat)
  deriving DecidableEq

/-- One pass of `_StartRound`'s membership loop (source lines 93-120).
For a proposer membership the caller itself calls `n.chain.ProposeBlock`
(recorded `inLock`) and spawns the broadcast goroutine; for a notary
membership it creates the shared cancel context on first need, appends a
fresh empty channel of capacity `chanCap`, and spawns the notary goroutine.
`created` tracks the local `ntCancelCtx != nil` test.  Returns the updated
node, the `created` flag, the in-lock trace and the spawned trace. -/
def startRoundLoop (bpId ntId : Nat) :
    List GroupMembership → Node → Bool →
      Node × Bool × List Event × List Event
  | [], st, created => (st, created, [], [])
  | m :: rest, st, created =>
    let lk1 : List Event := if m.groupID = bpId then [.proposeBlock] else []
    let sp1 : List Event := if m.groupID = bpId then [.broadcastProposal] else []
    let st2 : Node :=
      if m.groupID = ntId then
        { st with
          cancelNotarize := if created then st.cancelNotarize else some false,
          notarizeChs := st.notarizeChs ++ [[]] }
      else st
    let created2 : Bool := if m.groupID = ntId then true else created
    let sp2 : List Event := if m.groupID = ntId then [.runNotary m.groupID] else []
    let r := startRoundLoop bpId ntId rest st2 created2
    (r.1, r.2.1, lk1 ++ r.2.2.1, sp1 ++ sp2 ++ r.2.2.2)

/-- `_StartRound` (source lines 85-121): under the lock, read the round's
committees and run the membership loop. -/
def StartRound (n : Node) (round : Nat) : Node × Bool × List Event × List Event :=
  let c := n.chain.committees round
  startRoundLoop c.2.1 c.2.2 n.memberships n false

/-- The node's startup credentials (`NodeCredentials` in the source):
secret key, group ids, and the per-group secret-key shares. -/
structure NodeCredentials where
  sk : SK
  Groups : List Nat
  GroupShares : List SK
  deriving DecidableEq

/-- `NewNode` (source lines 55-71): derive the public key — a failure of
`sk.PK()` is an explicit `panic(err)` — and build the node with empty
memberships, no channels and a nil cancel handle.  The chain and
configuration are stored as given. -/
def NewNode (chain : Chain) (sk : SK) (cfg : Config) : Except GoPanic Node :=
  match sk.pkResult with
  | none => .error .panicCalled
  | some pk =>
    .ok { addr := pk, cfg := cfg, sk := sk, chain := chain,
          memberships := [], notarizeChs := [], cancelNotarize := none }

/-- The membership loop of `MakeNode` (source lines 180-188): for each
index `j` of `Groups`, read `GroupShares[j]` — out of range panics — and
`panic(err)` when its `Get` fails; otherwise append the membership pairing
`Groups[j]` with the retrieved share. -/
def makeMemberships : List Nat → List SK → Except GoPanic (List GroupMembership)
  | [], _ => .ok []
  | _ :: _, [] => .error .indexOutOfRange
  | g :: gs, s :: ss =>
    match s.getResult with
    | none => .error .panicCalled
    | some v =>
      match makeMemberships gs ss with
      | .error e => .error e
      | .ok ms => .ok (⟨v, g⟩ :: ms)

/-- `MakeNode` (source lines 175-191): build the node via `NewNode` (the
chain, networking and random-beacon wiring are external collaborators),
then run the membership loop over the credentials. -/
def MakeNode (credentials : NodeCredentials) (chain : Chain) (cfg : Config) :
    Except GoPanic Node :=
  match NewNode chain credentials.sk cfg with
  | .error e => .error e
  | .ok node =>
    match makeMemberships credentials.Groups credentials.GroupShares with
    | .error e => .error e
    | .ok ms => .ok { node with memberships := ms }

/-- The two error cases of `LoadCredential`. -/
inductive CredError where
  | openFailed
  | decodeFailed
  deriving DecidableEq

/-- `LoadCredential` (source lines 194-208).  The file system read is
modelled by its outcome `fileContents` (`none` = read error) and the
external gob decoder by the parameter `gobDecode` (`none` = decode
error); the function wraps the first failure in an error and otherwise
returns the decoded credentials. -/
def LoadCredential (gobDecode : List Nat → Option NodeCredentials)
    (fileContents : Option (List Nat)) : Except CredError NodeCredentials :=
  match fileContents with
  | none => .error .openFailed
  | some b =>
    match gobDecode b with
    | none => .error .decodeFailed
    | some c => .ok c

/-- Big-endian bytes of `n`, `w` bytes wide (most significant first). -/
def natToBytesBE (w n : Nat) : List Nat :=
  (List.range w).map fun i => n / 256 ^ (w - 1 - i) % 256

/-- Read back a big-endian byte string as a natural number. -/
def bytesToNatBE (bs : List Nat) : Nat :=
  bs.foldl (fun acc b => acc * 256 + b) 0

/-- Modelled from the spec: the `MarketSymbol` implementation is not under
`src/` (only its tests are); per the spec it is a fixed-width structure
whose `Quote` and `Base` components are 64 bits each (128 bits total). -/
structure MarketSymbol where
  Quote : Nat
  Base : Nat
  deriving DecidableEq

/-- Modelled from the spec: `MarketSymbol.Encode` serializes the
fixed-width pair as the 8 big-endian bytes of `Quote` followed by the 8
big-endian bytes of `Base`. -/
def MarketSymbol.Encode (m : MarketSymbol) : List Nat :=
  natToBytesBE 8 m.Quote ++ natToBytesBE 8 m.Base

/-- Modelled from the spec: `MarketSymbol.Decode` accepts exactly 16 bytes
and reads the two 64-bit components back. -/
def MarketSymbol.Decode (b : List Nat) : Option MarketSymbol :=
  if b.length = 16 then
    some ⟨bytesToNatBE (b.take 8), bytesToNatBE (b.drop 8)⟩
  else
    none

/-- Modelled from the spec: the body of `RandomBeacon.Committees` is not
under `src/` (only its caller in `node.go` is); per the spec it is a
deterministic pure function of the beacon history up to the round — it
derives the three committee ids for `round` from the hash of the last
beacon signature preceding `round`, and from nothing else (no node-local
state, wall-clock time, or network order). -/
def Committees (sha3 : List Nat → List Nat) (numGroups : Nat)
    (history : List BeaconEntry) (round : Nat) : Nat × Nat × Nat :=
  let pre := history.take round
  let seed := bytesToNatBE (sha3 (((pre.getLast?).map BeaconEntry.Sig).getD []))
  (seed % numGroups, (seed + 1) % numGroups, (seed + 2) % numGroups)

example :
    fanOut [[], [1]] 7 = ([[7], [1, 7]], true) := by decide

example :
    fanOut [List.replicate 20 0, []] 7 = ([List.replicate 20 0, []], false) := by
  decide

example :
    MarketSymbol.Decode (MarketSymbol.Encode ⟨2 ^ 64 - 2, 2 ^ 64 - 1⟩) =
      some ⟨2 ^ 64 - 2, 2 ^ 64 - 1⟩ := by decide

example :
    makeMemberships [4, 5] [⟨some 1, some 10⟩] = .error .indexOutOfRange := rfl

/-- The outcome of `EndRound`'s cancel step, including its panic
behaviour: the `!= nil` guard in the source skips the call on a nil
handle, so no branch panics and no error is returned. -/
def cancelCallOutcome : Option Bool → Except GoPanic (Option Bool)
  | none => .ok none
  | some _ => .ok (some true)

/-- C1: `EndRound r` spawns, for each local membership in round `r`'s
random-beacon committee, a task that signs over round `r+1` together with
the SHA3 hash of `history[r].Sig` read from the beacon history, and the
resulting share is what the task hands to the broadcast
(`recvRandBeaconSigShare`) — for any implementations of the external
`signRandBeaconShare` and `SHA3` primitives. -/
theorem endRound_beacon_share_causality {α : Type}
    (sign : Nat → Nat → Nat → List Nat → α) (sha3 : List Nat → List Nat)
    (n : Node) (round : Nat) (m : GroupMembership)
    (hm : m ∈ n.memberships)
    (hrb : m.groupID = (n.chain.committees round).1)
    (history : List BeaconEntry) (skv : Nat)
    (hsk : n.sk.getResult = some skv)
    (hlt : round < history.length) :
    (⟨m.skShare, round⟩ : BeaconTask) ∈ (EndRound n round).2 ∧
      runBeaconTask sign sha3 n.sk ⟨m.skShare, round⟩ history =
        .ok (sign skv m.skShare (round + 1)
          (sha3 (history.get ⟨round, hlt⟩).Sig)) := by
  constructor
  · simp only [EndRound, List.mem_filterMap]
    exact ⟨m, hm, by simp [hrb]⟩
  · simp [runBeaconTask, List.getElem?_eq_getElem hlt, hsk]

/-- Witness for C1 at a concrete node: one membership of group 3, beacon
committee id 3 for round 0, history of length 1 and retrievable key. -/
theorem endRound_beacon_share_causality_witness :
    (⟨7, 0⟩ : BeaconTask) ∈
      (EndRound
        { addr := 0, cfg := ⟨1, 4, 3⟩, sk := ⟨some 1, some 2⟩,
          chain := ⟨[⟨[9]⟩], fun _ => (3, 4, 5)⟩, memberships := [⟨7, 3⟩],
          notarizeChs := [], cancelNotarize := none } 0).2 ∧
    runBeaconTask (fun a b c d => (a, b, c, d)) (fun l => l)
        ⟨some 1, some 2⟩ ⟨7, 0⟩ [⟨[9]⟩] = .ok (2, 7, 1, [9]) := by
  have h := endRound_beacon_share_causality
    (fun a b c d => (a, b, c, d)) (fun l => l)
    { addr := 0, cfg := ⟨1, 4, 3⟩, sk := ⟨some 1, some 2⟩,
      chain := ⟨[⟨[9]⟩], fun _ => (3, 4, 5)⟩, memberships := [⟨7, 3⟩],
      notarizeChs := [], cancelNotarize := none } 0 ⟨7, 3⟩
    (by simp) (by simp) [⟨[9]⟩] 2 rfl (by decide)
  simpa using h

/-- C4: `EndRound` discards every notary input channel and fires the
shared cancel handle through the nil-guarded call; the cancel is
idempotent — firing an absent handle is skipped by the guard, firing an
already-done handle leaves it unchanged, a second firing changes nothing
— and the cancel step never panics or returns an error. -/
theorem endRound_cancel_idempotent (n : Node) (round : Nat) :
    (EndRound n round).1.notarizeChs = [] ∧
    (EndRound n round).1.cancelNotarize = callCancel n.cancelNotarize ∧
    callCancel none = none ∧
    callCancel (some true) = some true ∧
    (∀ h : Option Bool, callCancel (callCancel h) = callCancel h) ∧
    (∀ h : Option Bool, cancelCallOutcome h = .ok (callCancel h)) := by
  refine ⟨rfl, rfl, rfl, rfl, fun h => ?_, fun h => ?_⟩
  · cases h <;> rfl
  · cases h <;> rfl

/-- C10: after `EndRound` the channel list is empty, so a
`RecvBlockProposal` in the window before the next `StartRound` delivers
the proposal to no notary channel (the fan-out loop completes over zero
channels and the state is unchanged), while the memberships, secret key
and chain reference are exactly those before `EndRound`. -/
theorem endRound_window_drops_proposals (n : Node) (round : Nat)
    (bp : BlockProposal) :
    (EndRound n round).1.notarizeChs = [] ∧
    RecvBlockProposal (EndRound n round).1 bp = ((EndRound n round).1, true) ∧
    (EndRound n round).1.memberships = n.memberships ∧
    (EndRound n round).1.sk = n.sk ∧
    (EndRound n round).1.chain = n.chain := by
  exact ⟨rfl, rfl, rfl, rfl, rfl⟩

/-- C5 counterexample: a node holding a beacon-committee membership whose
beacon history is empty.  `EndRound 0` spawns the signing task, and
running that task panics with an index-out-of-range (`history[0]` does
not exist).  In Go an unrecovered panic inside a goroutine terminates the
whole process, so the node does crash, contrary to the claim; no share is
fabricated. -/
theorem endRound_missing_history_cex :
    (EndRound
      { addr := 0, cfg := ⟨1, 4, 3⟩, sk := ⟨some 1, some 2⟩,
        chain := ⟨[], fun _ => (3, 4, 5)⟩, memberships := [⟨7, 3⟩],
        notarizeChs := [], cancelNotarize := none } 0).2 = [⟨7, 0⟩] ∧
    runBeaconTask (fun a b c d => (a, b, c, d)) (fun l => l)
        ⟨some 1, some 2⟩ ⟨7, 0⟩ [] = .error .indexOutOfRange := by
  exact ⟨rfl, rfl⟩

/-- C5 amended: if the beacon history read by the spawned signing task
has no entry for the ended round, the task produces no share — it panics
with an index-out-of-range before any signing, which in Go crashes the
process (rather than failing gracefully). -/
theorem runBeaconTask_missing_history {α : Type}
    (sign : Nat → Nat → Nat → List Nat → α) (sha3 : List Nat → List Nat)
    (sk : SK) (t : BeaconTask) (history : List BeaconEntry)
    (h : history.length ≤ t.round) :
    runBeaconTask sign sha3 sk t history = .error .indexOutOfRange := by
  simp [runBeaconTask, List.getElem?_eq_none h]

/-- Witness for the amended C5 at a concrete task and empty history. -/
theorem runBeaconTask_missing_history_witness :
    runBeaconTask (fun a b c d => (a, b, c, d)) (fun l => l)
      ⟨some 1, some 5⟩ ⟨7, 2⟩ [] = .error .indexOutOfRange :=
  runBeaconTask_missing_history (fun a b c d => (a, b, c, d)) (fun l => l)
    ⟨some 1, some 5⟩ ⟨7, 2⟩ [] (by decide)

/-- C7: the committee selector is deterministic — its value at `round`
depends only on the beacon history up to `round`, so two evaluations (or
two honest nodes) over histories agreeing below `round` obtain the same
triple of committee ids, whatever the hash primitive and group count. -/
theorem committees_deterministic (sha3 : List Nat → List Nat)
    (numGroups : Nat) (h₁ h₂ : List BeaconEntry) (round : Nat)
    (hpre : h₁.take round = h₂.take round) :
    Committees sha3 numGroups h₁ round = Committees sha3 numGroups h₂ round := by
  simp only [Committees, hpre]

/-- Witness for C7: two histories that agree on their first entry but
differ at index 1 select the same committees for round 1. -/
theorem committees_deterministic_witness :
    Committees (fun l => l) 5 [⟨[1]⟩, ⟨[2]⟩] 1 =
      Committees (fun l => l) 5 [⟨[1]⟩, ⟨[3]⟩] 1 :=
  committees_deterministic (fun l => l) 5 [⟨[1]⟩, ⟨[2]⟩] [⟨[1]⟩, ⟨[3]⟩] 1
    (by decide)

/-- Helper: when every channel has room below `chanCap`, the fan-out loop
completes and appends the proposal to every channel's buffer. -/
theorem fanOut_all_room (bp : BlockProposal) :
    ∀ chs : List (List BlockProposal),
      (∀ ch ∈ chs, ch.length < chanCap) →
      fanOut chs bp = (chs.map (fun ch => ch ++ [bp]), true) := by
  intro chs
  induction chs with
  | nil => intro _; rfl
  | cons ch rest ih =>
    intro h
    have hch : ch.length < chanCap := h ch (List.mem_cons_self ch rest)
    have hrest := ih fun c hc => h c (List.mem_cons_of_mem ch hc)
    simp [fanOut, hch, hrest]

/-- C2 counterexample: a node with two active notary channels whose first
buffer already holds `chanCap` (20) proposals.  The blocking send on the
full first channel stops the fan-out loop, so the second active channel
never receives the proposal — contradicting "delivered to every currently
active notary input channel" and "a slow or cancelled notary never blocks
delivery to the other notary channels". -/
theorem recvBlockProposal_full_buffer_cex :
    (RecvBlockProposal
      { addr := 0, cfg := ⟨1, 4, 3⟩, sk := ⟨some 1, some 2⟩,
        chain := ⟨[], fun _ => (0, 1, 2)⟩, memberships := [],
        notarizeChs := [List.replicate 20 0, []],
        cancelNotarize := some false } 5).1.notarizeChs =
      [List.replicate 20 0, []] ∧
    (RecvBlockProposal
      { addr := 0, cfg := ⟨1, 4, 3⟩, sk := ⟨some 1, some 2⟩,
        chain := ⟨[], fun _ => (0, 1, 2)⟩, memberships := [],
        notarizeChs := [List.replicate 20 0, []],
        cancelNotarize := some false } 5).2 = false := by
  exact ⟨by decide, by decide⟩

/-- C2 amended: `RecvBlockProposal` delivers the proposal to every
currently active notary input channel provided every per-membership
buffer (capacity 20) has room; a channel whose buffer is full blocks the
loop, so delivery to the channels after it does not happen. -/
theorem recvBlockProposal_delivers_when_room (n : Node) (bp : BlockProposal)
    (hroom : ∀ ch ∈ n.notarizeChs, ch.length < chanCap) :
    RecvBlockProposal n bp =
      ({ n with notarizeChs := n.notarizeChs.map (fun ch => ch ++ [bp]) },
        true) := by
  simp [RecvBlockProposal, fanOut_all_room bp n.notarizeChs hroom]

/-- Witness for the amended C2: two channels with room both receive the
proposal and the loop completes. -/
theorem recvBlockProposal_delivers_when_room_witness :
    RecvBlockProposal
        { addr := 0, cfg := ⟨1, 4, 3⟩, sk := ⟨some 1, some 2⟩,
          chain := ⟨[], fun _ => (0, 1, 2)⟩, memberships := [],
          notarizeChs := [[], [9]], cancelNotarize := some false } 5 =
      ({ addr := 0, cfg := ⟨1, 4, 3⟩, sk := ⟨some 1, some 2⟩,
         chain := ⟨[], fun _ => (0, 1, 2)⟩, memberships := [],
         notarizeChs := [[5], [9, 5]], cancelNotarize := some false },
        true) := by
  have h := recvBlockProposal_delivers_when_room
    { addr := 0, cfg := ⟨1, 4, 3⟩, sk := ⟨some 1, some 2⟩,
      chain := ⟨[], fun _ => (0, 1, 2)⟩, memberships := [],
      notarizeChs := [[], [9]], cancelNotarize := some false } 5
    (by decide)
  simpa using h

/-- Helper: the event traces of `_StartRound`'s membership loop.  The
in-lock trace is exactly one `proposeBlock` per proposer membership (the
caller calls `chain.ProposeBlock` while holding the lock); the spawned
trace holds no `proposeBlock`, and one `broadcastProposal` per proposer
membership. -/
theorem startRoundLoop_trace (bpId ntId : Nat) :
    ∀ (ms : List GroupMembership) (st : Node) (created : Bool),
      (startRoundLoop bpId ntId ms st created).2.2.1 =
        List.replicate
          (ms.countP fun m => decide (m.groupID = bpId)) Event.proposeBlock ∧
      (startRoundLoop bpId ntId ms st created).2.2.2.count
          Event.proposeBlock = 0 ∧
      (startRoundLoop bpId ntId ms st created).2.2.2.count
          Event.broadcastProposal =
        ms.countP fun m => decide (m.groupID = bpId) := by
  intro ms
  induction ms with
  | nil => intro st created; exact ⟨rfl, rfl, rfl⟩
  | cons m rest ih =>
    intro st created
    by_cases hnt : m.groupID = ntId
    · subst hnt
      by_cases hbp : m.groupID = bpId
      · subst hbp
        obtain ⟨ih1, ih2, ih3⟩ := ih
          { st with
            cancelNotarize := if created then st.cancelNotarize else some false,
            notarizeChs := st.notarizeChs ++ [[]] } true
        simp [startRoundLoop, ih1, ih2, ih3, List.countP_cons,
          List.count_append, List.replicate_succ]
      · obtain ⟨ih1, ih2, ih3⟩ := ih
          { st with
            cancelNotarize := if created then st.cancelNotarize else some false,
            notarizeChs := st.notarizeChs ++ [[]] } true
        simp [startRoundLoop, hbp, ih1, ih2, ih3, List.countP_cons,
          List.count_append, List.replicate_succ]
    · obtain ⟨ih1, ih2, ih3⟩ := ih st created
      by_cases hbp : m.groupID = bpId
      · subst hbp
        simp [startRoundLoop, hnt, ih1, ih2, ih3, List.countP_cons,
          List.count_append, List.replicate_succ]
      · simp [startRoundLoop, hbp, hnt, ih1, ih2, ih3, List.countP_cons,
          List.count_append, List.replicate_succ]

/-- C3 counterexample: a node holding one proposer-committee membership.
`_StartRound` records the `ProposeBlock` call in the in-lock trace — the
proposal is constructed synchronously by the caller inside the
round-state critical section — and only the broadcast in the spawned
trace, contradicting "proposal construction does not block the caller".
-/
theorem startRound_sync_construction_cex :
    (StartRound
      { addr := 0, cfg := ⟨1, 4, 3⟩, sk := ⟨some 1, some 2⟩,
        chain := ⟨[], fun _ => (0, 1, 2)⟩, memberships := [⟨7, 1⟩],
        notarizeChs := [], cancelNotarize := none } 0).2.2.1 =
      [Event.proposeBlock] ∧
    (StartRound
      { addr := 0, cfg := ⟨1, 4, 3⟩, sk := ⟨some 1, some 2⟩,
        chain := ⟨[], fun _ => (0, 1, 2)⟩, memberships := [⟨7, 1⟩],
        notarizeChs := [], cancelNotarize := none } 0).2.2.2 =
      [Event.broadcastProposal] := by
  exact ⟨rfl, rfl⟩

/-- C3 amended: for every round, the spawned (asynchronous) work of
`_StartRound` contains no proposal construction — `ProposeBlock` runs
synchronously in the caller's critical section, once per proposer
membership — while the broadcast of each built proposal is spawned
asynchronously, once per proposer membership, and never runs in-lock. -/
theorem startRound_async_broadcast_sync_construction (n : Node) (round : Nat) :
    (StartRound n round).2.2.2.count Event.proposeBlock = 0 ∧
    (StartRound n round).2.2.1 =
      List.replicate
        (n.memberships.countP fun m =>
          decide (m.groupID = (n.chain.committees round).2.1))
        Event.proposeBlock ∧
    (StartRound n round).2.2.2.count Event.broadcastProposal =
      n.memberships.countP fun m =>
        decide (m.groupID = (n.chain.committees round).2.1) := by
  obtain ⟨h1, h2, h3⟩ := startRoundLoop_trace
    (n.chain.committees round).2.1 (n.chain.committees round).2.2
    n.memberships n false
  exact ⟨h2, h1, h3⟩

/-- Helper: if any index below `groups.length` holds a share whose
retrieval fails, the membership loop of `MakeNode` panics — either on
that share's `panic(err)` or on an earlier out-of-range index. -/
theorem makeMemberships_error_of_bad_share :
    ∀ (groups : List Nat) (shares : List SK) (j : Nat) (s : SK),
      shares[j]? = some s → j < groups.length → s.getResult = none →
      ∃ e, makeMemberships groups shares = .error e := by
  intro groups
  induction groups with
  | nil => intro shares j s _ hj _; simp at hj
  | cons g gs ih =>
    intro shares j s hs hj hbad
    cases shares with
    | nil => exact ⟨.indexOutOfRange, rfl⟩
    | cons s0 ss =>
      cases j with
      | zero =>
        have hs0 : s0 = s := by simpa using hs
        exact ⟨.panicCalled, by simp [makeMemberships, hs0, hbad]⟩
      | succ j =>
        cases hv : s0.getResult with
        | none => exact ⟨.panicCalled, by simp [makeMemberships, hv]⟩
        | some v =>
          obtain ⟨e, he⟩ := ih ss j s (by simpa using hs)
            (by simpa using hj) hbad
          exact ⟨e, by simp [makeMemberships, hv, he]⟩

/-- C6: startup credential failures are fatal and unrecoverable —
`LoadCredential` returns an error exactly when the file read fails
(`openFailed`) or the gob decode fails (`decodeFailed`) and otherwise
returns the decoded credentials; `NewNode` panics when `sk.PK()` fails
and succeeds otherwise; and a group share whose retrieval fails makes
`MakeNode` abort with a panic rather than retry or skip. -/
theorem startup_credential_failures_fatal :
    (∀ d : List Nat → Option NodeCredentials,
        LoadCredential d none = .error .openFailed) ∧
    (∀ (d : List Nat → Option NodeCredentials) (b : List Nat),
        d b = none → LoadCredential d (some b) = .error .decodeFailed) ∧
    (∀ (d : List Nat → Option NodeCredentials) (b : List Nat)
        (c : NodeCredentials),
        d b = some c → LoadCredential d (some b) = .ok c) ∧
    (∀ (chain : Chain) (sk : SK) (cfg : Config),
        sk.pkResult = none → NewNode chain sk cfg = .error .panicCalled) ∧
    (∀ (chain : Chain) (sk : SK) (cfg : Config) (pk : Nat),
        sk.pkResult = some pk → ∃ nd, NewNode chain sk cfg = .ok nd) ∧
    (∀ (cred : NodeCredentials) (chain : Chain) (cfg : Config)
        (j : Nat) (s : SK),
        cred.GroupShares[j]? = some s → j < cred.Groups.length →
        s.getResult = none →
        ∃ e, MakeNode cred chain cfg = .error e) := by
  refine ⟨fun d => rfl, fun d b h => by simp [LoadCredential, h],
    fun d b c h => by simp [LoadCredential, h],
    fun chain sk cfg h => by simp [NewNode, h],
    fun chain sk cfg pk h =>
      ⟨{ addr := pk, cfg := cfg, sk := sk, chain := chain,
         memberships := [], notarizeChs := [], cancelNotarize := none },
        by simp [NewNode, h]⟩,
    fun cred chain cfg j s hs hj hbad => ?_⟩
  cases hpk : cred.sk.pkResult with
  | none => exact ⟨.panicCalled, by simp [MakeNode, NewNode, hpk]⟩
  | some pk =>
    obtain ⟨e, he⟩ := makeMemberships_error_of_bad_share
      cred.Groups cred.GroupShares j s hs hj hbad
    exact ⟨e, by simp [MakeNode, NewNode, hpk, he]⟩

/-- Witness for C6: a decode failure, a missing public key, and a
credential set whose single group share cannot be retrieved. -/
theorem startup_credential_failures_fatal_witness :
    LoadCredential (fun _ => none) (some [1]) = .error .decodeFailed ∧
    NewNode ⟨[], fun _ => (0, 1, 2)⟩ ⟨none, none⟩ ⟨1, 4, 3⟩ =
      .error .panicCalled ∧
    (∃ e, MakeNode ⟨⟨some 1, some 2⟩, [4], [⟨some 3, none⟩]⟩
        ⟨[], fun _ => (0, 1, 2)⟩ ⟨1, 4, 3⟩ = .error e) := by
  refine ⟨?_, ?_, ?_⟩
  · exact startup_credential_failures_fatal.2.1 (fun _ => none) [1] rfl
  · exact startup_credential_failures_fatal.2.2.2.1 _ _ _ rfl
  · exact startup_credential_failures_fatal.2.2.2.2.2
      ⟨⟨some 1, some 2⟩, [4], [⟨some 3, none⟩]⟩ ⟨[], fun _ => (0, 1, 2)⟩
      ⟨1, 4, 3⟩ 0 ⟨some 3, none⟩ rfl (by decide) rfl

/-- Helper: with a retrievable share at every index and at least as many
shares as groups, the membership loop returns the in-order pairing of
each group id with its share value. -/
theorem makeMemberships_ok_of_good_shares :
    ∀ (groups : List Nat) (shares : List SK) (vals : List Nat),
      shares.map SK.getResult = vals.map some →
      groups.length ≤ shares.length →
      makeMemberships groups shares =
        .ok (List.zipWith (fun g v => (⟨v, g⟩ : GroupMembership))
          groups vals) := by
  intro groups
  induction groups with
  | nil => intro shares vals _ _; rfl
  | cons g gs ih =>
    intro shares vals hmap hlen
    cases shares with
    | nil => simp at hlen
    | cons s ss =>
      cases vals with
      | nil => simp at hmap
      | cons v vs =>
        simp only [List.map_cons, List.cons.injEq] at hmap
        obtain ⟨h1, h2⟩ := hmap
        have hrec := ih ss vs h2 (by simpa using hlen)
        simp [makeMemberships, h1, hrec]

/-- Helper: with fewer shares than groups and every present share
retrievable, the loop reaches the missing index and panics out of range. -/
theorem makeMemberships_short_shares :
    ∀ (groups : List Nat) (shares : List SK),
      (∀ s ∈ shares, s.getResult ≠ none) →
      shares.length < groups.length →
      makeMemberships groups shares = .error .indexOutOfRange := by
  intro groups
  induction groups with
  | nil => intro shares _ hlen; simp at hlen
  | cons g gs ih =>
    intro shares hgood hlen
    cases shares with
    | nil => rfl
    | cons s ss =>
      cases hv : s.getResult with
      | none => exact absurd hv (hgood s (List.mem_cons_self s ss))
      | some v =>
        have hrec := ih ss (fun c hc => hgood c (List.mem_cons_of_mem s hc))
          (by simpa using hlen)
        simp [makeMemberships, hv, hrec]

/-- C9: `MakeNode` creates exactly one membership per entry of
`credentials.Groups`, pairing `Groups[j]` with the value of
`GroupShares[j]` in order (so the membership list has the length of
`Groups`); when `GroupShares` is shorter than `Groups` the loop panics
with an out-of-range index instead of returning an error or skipping. -/
theorem makeNode_pairs_groups_with_shares :
    (∀ (groups : List Nat) (shares : List SK) (vals : List Nat),
        shares.map SK.getResult = vals.map some →
        groups.length ≤ shares.length →
        makeMemberships groups shares =
          .ok (List.zipWith (fun g v => (⟨v, g⟩ : GroupMembership))
            groups vals) ∧
        (List.zipWith (fun g v => (⟨v, g⟩ : GroupMembership))
          groups vals).length = groups.length) ∧
    (∀ (groups : List Nat) (shares : List SK),
        (∀ s ∈ shares, s.getResult ≠ none) →
        shares.length < groups.length →
        makeMemberships groups shares = .error .indexOutOfRange) ∧
    (∀ (cred : NodeCredentials) (chain : Chain) (cfg : Config) (pk : Nat)
        (ms : List GroupMembership),
        cred.sk.pkResult = some pk →
        makeMemberships cred.Groups cred.GroupShares = .ok ms →
        ∃ nd, MakeNode cred chain cfg = .ok nd ∧ nd.memberships = ms) := by
  refine ⟨fun groups shares vals hmap hlen => ⟨?_, ?_⟩,
    makeMemberships_short_shares, ?_⟩
  · exact makeMemberships_ok_of_good_shares groups shares vals hmap hlen
  · have hv : shares.length = vals.length := by
      simpa using congrArg List.length hmap
    simp only [List.length_zipWith]
    omega
  · intro cred chain cfg pk ms hpk hmm
    exact ⟨{ addr := pk, cfg := cfg, sk := cred.sk, chain := chain,
             memberships := ms, notarizeChs := [], cancelNotarize := none },
      by simp [MakeNode, NewNode, hpk, hmm], rfl⟩

/-- Witness for C9: two groups with two retrievable shares pair up in
order; two groups with a single share panic out of range. -/
theorem makeNode_pairs_groups_with_shares_witness :
    makeMemberships [4, 5] [⟨some 1, some 10⟩, ⟨some 1, some 11⟩] =
      .ok [⟨10, 4⟩, ⟨11, 5⟩] ∧
    makeMemberships [4, 5] [⟨some 1, some 10⟩, ⟨some 1, some 11⟩,
      ⟨some 1, some 12⟩] ≠ .error .indexOutOfRange ∧
    makeMemberships [4, 5, 6] [⟨some 1, some 10⟩, ⟨some 1, some 11⟩] =
      .error .indexOutOfRange := by
  refine ⟨?_, ?_, ?_⟩
  · have h := (makeNode_pairs_groups_with_shares.1 [4, 5]
      [⟨some 1, some 10⟩, ⟨some 1, some 11⟩] [10, 11] (by decide)
      (by decide)).1
    simpa using h
  · have h := (makeNode_pairs_groups_with_shares.1 [4, 5]
      [⟨some 1, some 10⟩, ⟨some 1, some 11⟩, ⟨some 1, some 12⟩] [10, 11, 12]
      (by decide) (by decide)).1
    rw [h]
    simp
  · exact makeNode_pairs_groups_with_shares.2.1 [4, 5, 6]
      [⟨some 1, some 10⟩, ⟨some 1, some 11⟩] (by decide) (by decide)

/-- Helper: peeling the most significant byte off a big-endian encoding. -/
theorem natToBytesBE_succ (w n : Nat) :
    natToBytesBE (w + 1) n = n / 256 ^ w % 256 :: natToBytesBE w n := by
  simp [natToBytesBE, List.range_succ_eq_map, List.map_map, Function.comp,
    Nat.sub_sub, Nat.add_comm]

/-- Helper: a `w`-wide encoding has `w` bytes. -/
theorem natToBytesBE_length (w n : Nat) : (natToBytesBE w n).length = w := by
  simp [natToBytesBE]

/-- Helper: the fold reading bytes back, with an arbitrary accumulator. -/
theorem bytesToNatBE_foldl (bs : List Nat) :
    ∀ a : Nat, bs.foldl (fun acc b => acc * 256 + b) a =
      a * 256 ^ bs.length + bytesToNatBE bs := by
  induction bs with
  | nil => intro a; simp [bytesToNatBE]
  | cons b bs ih =>
    intro a
    simp only [List.foldl_cons, List.length_cons, bytesToNatBE,
      Nat.zero_mul, Nat.zero_add]
    rw [ih (a * 256 + b), ih b]
    ring

/-- Helper: reading a byte string one byte longer. -/
theorem bytesToNatBE_cons (b : Nat) (bs : List Nat) :
    bytesToNatBE (b :: bs) = b * 256 ^ bs.length + bytesToNatBE bs := by
  have h := bytesToNatBE_foldl bs b
  simp only [bytesToNatBE, List.foldl_cons]
  simpa using h

/-- Helper: decoding an encoding recovers the value modulo `256 ^ w`. -/
theorem bytesToNatBE_natToBytesBE (w n : Nat) :
    bytesToNatBE (natToBytesBE w n) = n % 256 ^ w := by
  induction w with
  | zero => simp [natToBytesBE, bytesToNatBE, Nat.mod_one]
  | succ w ih =>
    have h1 : n % (256 ^ w * 256) / 256 ^ w = n / 256 ^ w % 256 :=
      Nat.mod_mul_right_div_self n (256 ^ w) 256
    have h2 : n % (256 ^ w * 256) % 256 ^ w = n % 256 ^ w :=
      Nat.mod_mod_of_dvd n (dvd_mul_right _ _)
    rw [natToBytesBE_succ, bytesToNatBE_cons, natToBytesBE_length, ih,
      pow_succ, ← h1, ← h2, Nat.div_add_mod']

/-- C8: `MarketSymbol` encoding round-trips — decoding the encoding of
any symbol whose `Quote` and `Base` fit their 64-bit fields yields the
same symbol with all fields preserved — and is injective: two symbols
differing in either component encode to distinct byte strings (no
collision for any two distinct 128-bit-total keys). -/
theorem marketSymbol_roundtrip_injective :
    (∀ m : MarketSymbol, m.Quote < 2 ^ 64 → m.Base < 2 ^ 64 →
        MarketSymbol.Decode (MarketSymbol.Encode m) = some m) ∧
    (∀ m₁ m₂ : MarketSymbol, m₁.Quote < 2 ^ 64 → m₁.Base < 2 ^ 64 →
        m₂.Quote < 2 ^ 64 → m₂.Base < 2 ^ 64 → m₁ ≠ m₂ →
        MarketSymbol.Encode m₁ ≠ MarketSymbol.Encode m₂) := by
  have hpow : (256 : Nat) ^ 8 = 2 ^ 64 := by norm_num
  have hrt : ∀ m : MarketSymbol, m.Quote < 2 ^ 64 → m.Base < 2 ^ 64 →
      MarketSymbol.Decode (MarketSymbol.Encode m) = some m := by
    intro m hq hb
    have hlq : (natToBytesBE 8 m.Quote).length = 8 := natToBytesBE_length 8 _
    have hlb : (natToBytesBE 8 m.Base).length = 8 := natToBytesBE_length 8 _
    have hlen : (MarketSymbol.Encode m).length = 16 := by
      simp [MarketSymbol.Encode, hlq, hlb]
    have htake : (MarketSymbol.Encode m).take 8 = natToBytesBE 8 m.Quote := by
      have h := List.take_left (natToBytesBE 8 m.Quote) (natToBytesBE 8 m.Base)
      rw [hlq] at h
      exact h
    have hdrop : (MarketSymbol.Encode m).drop 8 = natToBytesBE 8 m.Base := by
      have h := List.drop_left (natToBytesBE 8 m.Quote) (natToBytesBE 8 m.Base)
      rw [hlq] at h
      exact h
    have hq' : bytesToNatBE (natToBytesBE 8 m.Quote) = m.Quote := by
      rw [bytesToNatBE_natToBytesBE, hpow, Nat.mod_eq_of_lt hq]
    have hb' : bytesToNatBE (natToBytesBE 8 m.Base) = m.Base := by
      rw [bytesToNatBE_natToBytesBE, hpow, Nat.mod_eq_of_lt hb]
    simp [MarketSymbol.Decode, hlen, htake, hdrop, hq', hb']
  refine ⟨hrt, fun m₁ m₂ hq₁ hb₁ hq₂ hb₂ hne henc => hne ?_⟩
  have h := (hrt m₁ hq₁ hb₁).symm.trans (henc ▸ hrt m₂ hq₂ hb₂)
  exact Option.some_injective _ h

/-- Witness for C8, at the values of the repository's own test
(`TestMarketSymbolBytes` / `TestMarketEncodeDecode`): the encoding of
`(2^64-2, 2^64-1)` decodes back, and it differs from the encoding of
`(2^64-2, 2^64-3)`, which differs only in the base component. -/
theorem marketSymbol_roundtrip_injective_witness :
    MarketSymbol.Decode
        (MarketSymbol.Encode ⟨2 ^ 64 - 2, 2 ^ 64 - 1⟩) =
      some ⟨2 ^ 64 - 2, 2 ^ 64 - 1⟩ ∧
    MarketSymbol.Encode ⟨2 ^ 64 - 2, 2 ^ 64 - 1⟩ ≠
      MarketSymbol.Encode ⟨2 ^ 64 - 2, 2 ^ 64 - 3⟩ := by
  constructor
  · exact marketSymbol_roundtrip_injective.1 ⟨2 ^ 64 - 2, 2 ^ 64 - 1⟩
      (by norm_num) (by norm_num)
  · exact marketSymbol_roundtrip_injective.2 ⟨2 ^ 64 - 2, 2 ^ 64 - 1⟩
      ⟨2 ^ 64 - 2, 2 ^ 64 - 3⟩ (by norm_num) (by norm_num) (by norm_num)
      (by norm_num) (by decide)

end Dex
